import Mathlib

/-!
# gs_autograder: the `test-1-2` driver

Shallow embedding of `source/test-1-2.cpp`: the `main` function of the test
driver, the C library routine `atoi` it uses to read its selector, and the
externally linked `maximum` it calls.

* `maximum` is only declared in the driver (`extern int maximum(int* arr, int n)`),
  so `main` takes the linked function as a parameter; the contract of the
  function itself, for lengths within the array, is modelled from the
  specification (`maximum` below).
* A run of `main` is recorded as the list of calls made to the linked
  function, the text written to standard output and the exit code.
-/

set_option autoImplicit false

namespace GsAutograder

/-! ## The C library pieces used by `main` -/

/-- Largest value of a C `int` (32 bit). -/
def INT_MAX : Int := 2147483647

/-- Smallest value of a C `int` (32 bit). -/
def INT_MIN : Int := -2147483648

/-- C `isspace` in the "C" locale: space, and the controls `\t \n \v \f \r` (codes 9 to 13). -/
def isspace (c : Char) : Bool :=
  c.toNat = 32 || (9 ≤ c.toNat && c.toNat ≤ 13)

/-- C `isdigit`: the characters `0` to `9` (codes 48 to 57). -/
def isdigit (c : Char) : Bool :=
  48 ≤ c.toNat && c.toNat ≤ 57

/-- Value of a digit character, `c - 48` in C. -/
def digitValue (c : Char) : Nat :=
  c.toNat - 48

/-- First loop of `atoi`: `while (isspace(*s)) s++;`. -/
def skipSpaces : List Char → List Char
  | [] => []
  | c :: cs => if isspace c then skipSpaces cs else c :: cs

/-- Digit loop of `atoi`: `while (isdigit(*s)) n = 10*n + (*s++ - 48);`,
computed without a bound; the bound is checked by `toInt32` afterwards. -/
def readDigits (acc : Nat) : List Char → Nat
  | [] => acc
  | c :: cs => if isdigit c then readDigits (10 * acc + digitValue c) cs else acc

/-- A mathematical integer as a C `int`: defined only when it is representable.
ISO C leaves `atoi` undefined when the converted value does not fit. -/
def toInt32 (v : Int) : Option Int :=
  if INT_MIN ≤ v ∧ v ≤ INT_MAX then some v else none

/-- The C library function `atoi` on the characters of its argument: skip leading
white space, read one optional sign, then read decimal digits up to the first
character that is not a digit. `none` stands for the undefined behaviour of a
value that does not fit in an `int`. -/
def atoiChars (s : List Char) : Option Int :=
  match skipSpaces s with
  | [] => toInt32 0
  | c :: cs =>
    if c = '-' then toInt32 (-(readDigits 0 cs : Int))
    else if c = '+' then toInt32 (readDigits 0 cs : Int)
    else toInt32 (readDigits 0 (c :: cs) : Int)

/-- C `atoi` on a string. -/
def atoi (s : String) : Option Int :=
  atoiChars s.toList

/-- Text produced by `cout << v` for an `int` (default flags): decimal digits,
with a leading minus sign for a negative value. -/
def showInt (v : Int) : String :=
  toString v

/-! ## The driver -/

/-- What one run of the driver did: the calls it made to the linked `maximum`
(array contents and length argument), what it wrote to standard output, and its
exit code (`none` when `main` never returned because the linked function did not). -/
structure Outcome where
  calls : List (List Int × Int)
  stdout : String
  exit : Option Int
deriving DecidableEq

/-- The array `int testArr[] = {5,2,8,3, 1,15,9,10};`. -/
def testArr : List Int := [5, 2, 8, 3, 1, 15, 9, 10]

/-- One statement `cout << maximum(testArr, n) << endl;` followed by the end of
`main`. The linked function is `f`; `f arr n = none` means the call does not
return. -/
def printMaximum (f : List Int → Int → Option Int) (n : Int) : Outcome :=
  match f testArr n with
  | some v => Outcome.mk [(testArr, n)] (showInt v ++ "\n") (some 0)
  | none => Outcome.mk [(testArr, n)] "" none

/-- The `if (test == 0) ... else if (test == 1) ... else if (test == 2) ...` chain of
`main`; falling off the end of `main` returns 0. -/
def mainBody (f : List Int → Int → Option Int) (test : Int) : Outcome :=
  if test = 0 then printMaximum f 4
  else if test = 1 then printMaximum f 8
  else if test = 2 then printMaximum f 2
  else Outcome.mk [] "" (some 0)

/-- The selector: `int test = 0; if (argc > 1) test = atoi(argv[1]);` where `argc`
is the length of `argv` (program name included). -/
def selector (argv : List String) : Option Int :=
  if argv.length > 1 then atoi (argv.getD 1 "") else some 0

/-- The function `main` of `test-1-2.cpp`, linked against `f`. `none` is the
undefined behaviour of `atoi` on a value that does not fit in an `int`. -/
def main (f : List Int → Int → Option Int) (argv : List String) : Option Outcome :=
  (selector argv).map (mainBody f)

/-! ## The linked function -/

/-- Modelled from the spec: the body of `maximum`, which the driver only declares
(`extern int maximum(int* arr, int n)`); its definition is not among the sources.
The declared function returns a plain `int` and receives no array size. Per the
MaxFinder contract, for `1 ≤ n` not exceeding the sequence size it returns the
maximum among the elements at positions `[0, n)`, found by one scan that keeps
the best value seen so far. Outside that precondition the original is described
as scanning without verifying `n`, reading outside the array: no result is
defined there, which is `none`. -/
def maximum (arr : List Int) (n : Int) : Option Int :=
  if n ≤ 0 ∨ (arr.length : Int) < n then none
  else
    match arr.take n.toNat with
    | [] => none
    | x :: xs => some (xs.foldl (fun best y => if best < y then y else best) x)

/-! ## Vocabulary of the properties -/

/-- `v` is the greatest of the first `n` elements of `arr`: it occurs among them
and none of them exceeds it. -/
def IsGreatestOfFirst (arr : List Int) (n : Int) (v : Int) : Prop :=
  v ∈ arr.take n.toNat ∧ ∀ x ∈ arr.take n.toNat, x ≤ v

/-- The linked function returns the greatest of the first `n` elements whenever
`1 ≤ n ≤ length`. -/
def ReturnsGreatest (f : List Int → Int → Option Int) : Prop :=
  ∀ (arr : List Int) (n : Int), 1 ≤ n → n ≤ (arr.length : Int) →
    ∃ v, f arr n = some v ∧ IsGreatestOfFirst arr n v

/-- Value of a run of decimal digits read as a base ten numeral,
most significant digit first. -/
def decimalValue (ds : List Char) : Nat :=
  Nat.ofDigits 10 (ds.reverse.map digitValue)

/-- Value of a digit run under an optional sign: negated after a minus sign. -/
def signedValue (sign ds : List Char) : Int :=
  if sign = ['-'] then -(decimalValue ds : Int) else (decimalValue ds : Int)

/-- A string is a decimal integer when it is an optional sign followed by one or
more decimal digits and nothing else. -/
def isDecimalInteger (s : String) : Bool :=
  match s.toList with
  | [] => false
  | c :: cs =>
    if c = '-' ∨ c = '+' then !cs.isEmpty && cs.all isdigit
    else isdigit c && cs.all isdigit

/-! ## Lemmas on the scan of `maximum` -/

theorem scan_result (xs : List Int) (b : Int) :
    (xs.foldl (fun best y => if best < y then y else best) b = b ∨
      xs.foldl (fun best y => if best < y then y else best) b ∈ xs) ∧
    b ≤ xs.foldl (fun best y => if best < y then y else best) b ∧
    ∀ x ∈ xs, x ≤ xs.foldl (fun best y => if best < y then y else best) b := by
  induction xs generalizing b with
  | nil => simp
  | cons y ys ih =>
    simp only [List.foldl_cons, List.mem_cons, forall_eq_or_imp]
    obtain ⟨h1, h2, h3⟩ := ih (if b < y then y else b)
    refine ⟨?_, ?_, ?_, h3⟩
    · rcases h1 with h | h
      · by_cases hb : b < y
        · right; left; rw [h]; simp [hb]
        · left; rw [h]; simp [hb]
      · right; right; exact h
    · by_cases hb : b < y
      · simp only [hb, if_true] at h2 ⊢; omega
      · simp only [hb, if_false] at h2 ⊢; exact h2
    · by_cases hb : b < y
      · simp only [hb, if_true] at h2 ⊢; exact h2
      · simp only [hb, if_false] at h2 ⊢; omega

theorem maximum_greatest (seq : List Int) (n : Int) (h1 : 1 ≤ n)
    (h2 : n ≤ (seq.length : Int)) :
    ∃ v, maximum seq n = some v ∧ IsGreatestOfFirst seq n v := by
  unfold maximum IsGreatestOfFirst
  have hguard : ¬ (n ≤ 0 ∨ (seq.length : Int) < n) := by omega
  rw [if_neg hguard]
  cases hseq : seq.take n.toNat with
  | nil =>
    exfalso
    have hlen : (seq.take n.toNat).length = 0 := by rw [hseq]; rfl
    rw [List.length_take] at hlen
    omega
  | cons x xs =>
    obtain ⟨h3, h4, h5⟩ := scan_result xs x
    refine ⟨_, rfl, ?_, ?_⟩
    · rcases h3 with h | h
      · rw [h]; exact List.mem_cons_self _ _
      · exact List.mem_cons_of_mem _ h
    · intro y hy
      rcases List.mem_cons.mp hy with h | h
      · rw [h]; exact h4
      · exact h5 y h

theorem maximum_returnsGreatest : ReturnsGreatest maximum := by
  intro arr n h1 h2
  exact maximum_greatest arr n h1 h2


/-! ## Lemmas on `atoi` -/

theorem skipSpaces_append_of_all (ws t : List Char) (h : ∀ c ∈ ws, isspace c = true) :
    skipSpaces (ws ++ t) = skipSpaces t := by
  induction ws with
  | nil => rfl
  | cons c cs ih =>
    have hc : isspace c = true := h c (List.mem_cons_self _ _)
    have hcs : ∀ d ∈ cs, isspace d = true := fun d hd => h d (List.mem_cons_of_mem _ hd)
    simp only [List.cons_append, skipSpaces, hc, if_true]
    exact ih hcs

theorem skipSpaces_of_head (t : List Char) (h : ∀ c ∈ t.head?, isspace c = false) :
    skipSpaces t = t := by
  cases t with
  | nil => rfl
  | cons c cs =>
    have hc : isspace c = false := h c (by simp)
    simp [skipSpaces, hc]

theorem readDigits_of_head (acc : Nat) (t : List Char)
    (h : ∀ c ∈ t.head?, isdigit c = false) : readDigits acc t = acc := by
  cases t with
  | nil => rfl
  | cons c cs =>
    have hc : isdigit c = false := h c (by simp)
    simp [readDigits, hc]

theorem decimalValue_cons (c : Char) (ds : List Char) :
    decimalValue (c :: ds) = digitValue c * 10 ^ ds.length + decimalValue ds := by
  unfold decimalValue
  rw [List.reverse_cons, List.map_append, Nat.ofDigits_append]
  simp [Nat.ofDigits_singleton]
  ring

theorem readDigits_run (ds rest : List Char) (acc : Nat)
    (hd : ∀ c ∈ ds, isdigit c = true) (hr : ∀ c ∈ rest.head?, isdigit c = false) :
    readDigits acc (ds ++ rest) = acc * 10 ^ ds.length + decimalValue ds := by
  induction ds generalizing acc with
  | nil => simp [readDigits_of_head acc rest hr, decimalValue]
  | cons c cs ih =>
    have hc : isdigit c = true := hd c (List.mem_cons_self _ _)
    have hcs : ∀ d ∈ cs, isdigit d = true := fun d hd2 => hd d (List.mem_cons_of_mem _ hd2)
    have hstep : readDigits acc (c :: cs ++ rest) =
        readDigits (10 * acc + digitValue c) (cs ++ rest) := by
      simp [readDigits, hc]
    rw [hstep, ih (10 * acc + digitValue c) hcs, decimalValue_cons, List.length_cons]
    ring

theorem digit_not_space (c : Char) (h : isdigit c = true) : isspace c = false := by
  unfold isdigit at h
  unfold isspace
  simp only [Bool.and_eq_true, decide_eq_true_eq] at h
  simp only [Bool.or_eq_false_iff, Bool.and_eq_false_imp, decide_eq_false_iff_not,
    decide_eq_true_eq]
  omega

theorem digit_not_sign (c : Char) (h : isdigit c = true) : c ≠ '-' ∧ c ≠ '+' := by
  constructor
  · intro hc
    rw [hc] at h
    exact absurd h (by decide)
  · intro hc
    rw [hc] at h
    exact absurd h (by decide)

theorem toInt32_of_fits (v : Int) (h1 : INT_MIN ≤ v) (h2 : v ≤ INT_MAX) :
    toInt32 v = some v := by
  simp [toInt32, h1, h2]

/-- White space, no sign, then a digit run. -/
theorem atoiChars_digits (ws ds rest : List Char) (hws : ∀ c ∈ ws, isspace c = true)
    (hne : ds ≠ []) (hd : ∀ c ∈ ds, isdigit c = true)
    (hr : ∀ c ∈ rest.head?, isdigit c = false) :
    atoiChars (ws ++ (ds ++ rest)) = toInt32 (decimalValue ds : Int) := by
  cases ds with
  | nil => exact absurd rfl hne
  | cons d ds1 =>
    have hdig : isdigit d = true := hd d (List.mem_cons_self _ _)
    have hskip : skipSpaces (ws ++ (d :: ds1 ++ rest)) = d :: (ds1 ++ rest) := by
      rw [skipSpaces_append_of_all ws _ hws]
      exact skipSpaces_of_head _ (by simp [digit_not_space d hdig])
    have hrun := readDigits_run (d :: ds1) rest 0 hd hr
    unfold atoiChars
    rw [hskip]
    simp only [(digit_not_sign d hdig).1, (digit_not_sign d hdig).2, if_false]
    rw [← List.cons_append, hrun]
    simp

/-- White space, a sign character, then a (possibly empty) digit run. -/
theorem atoiChars_signed (ws ds rest : List Char) (s : Char) (hs : s = '-' ∨ s = '+')
    (hws : ∀ c ∈ ws, isspace c = true) (hd : ∀ c ∈ ds, isdigit c = true)
    (hr : ∀ c ∈ rest.head?, isdigit c = false) :
    atoiChars (ws ++ (s :: (ds ++ rest))) =
      toInt32 (if s = '-' then -(decimalValue ds : Int) else (decimalValue ds : Int)) := by
  have hsp : isspace s = false := by
    rcases hs with h | h <;> rw [h] <;> decide
  have hskip : skipSpaces (ws ++ (s :: (ds ++ rest))) = s :: (ds ++ rest) := by
    rw [skipSpaces_append_of_all ws _ hws]
    exact skipSpaces_of_head _ (by simp [hsp])
  have hrun := readDigits_run ds rest 0 hd hr
  unfold atoiChars
  rw [hskip]
  rcases hs with h | h
  · subst h
    simp [hrun]
  · subst h
    have hne : ¬ ('+' = '-') := by decide
    simp [hrun, hne]

/-- White space and then a character that starts neither a sign nor a digit run. -/
theorem atoiChars_no_number (ws rest : List Char) (hws : ∀ c ∈ ws, isspace c = true)
    (hr : ∀ c ∈ rest.head?,
      isdigit c = false ∧ isspace c = false ∧ c ≠ '+' ∧ c ≠ '-') :
    atoiChars (ws ++ rest) = some 0 := by
  have hskip : skipSpaces (ws ++ rest) = rest := by
    rw [skipSpaces_append_of_all ws _ hws]
    exact skipSpaces_of_head _ (fun c hc => (hr c hc).2.1)
  unfold atoiChars
  rw [hskip]
  cases rest with
  | nil => rfl
  | cons c cs =>
    obtain ⟨h1, _, h3, h4⟩ := hr c (by simp)
    simp [h3, h4, readDigits, h1]
    rfl

/-! ## Lemmas on the driver -/

theorem selector_cons_cons (prog arg : String) (more : List String) :
    selector (prog :: arg :: more) = atoi arg := by
  simp [selector]

theorem selector_of_short (argv : List String) (h : argv.length ≤ 1) :
    selector argv = some 0 := by
  have : ¬ (argv.length > 1) := by omega
  simp [selector, this]

theorem main_of_selector (f : List Int → Int → Option Int) (argv : List String) (s : Int)
    (hs : selector argv = some s) : main f argv = some (mainBody f s) := by
  simp [main, hs]

theorem printMaximum_calls (f : List Int → Int → Option Int) (n : Int) :
    (printMaximum f n).calls = [(testArr, n)] := by
  unfold printMaximum
  cases f testArr n <;> rfl

theorem printMaximum_of_some (f : List Int → Int → Option Int) (n v : Int)
    (hv : f testArr n = some v) :
    printMaximum f n = Outcome.mk [(testArr, n)] (showInt v ++ "\n") (some 0) := by
  simp [printMaximum, hv]

theorem greatest_of_four (v : Int) (h : IsGreatestOfFirst testArr 4 v) : v = 8 := by
  obtain ⟨h1, h2⟩ := h
  have h8 := h2 8 (by decide)
  have hm : v ∈ [(5 : Int), 2, 8, 3] := h1
  simp only [List.mem_cons, List.mem_singleton, List.not_mem_nil, or_false] at hm
  omega

theorem greatest_of_eight (v : Int) (h : IsGreatestOfFirst testArr 8 v) : v = 15 := by
  obtain ⟨h1, h2⟩ := h
  have h15 := h2 15 (by decide)
  have hm : v ∈ [(5 : Int), 2, 8, 3, 1, 15, 9, 10] := h1
  simp only [List.mem_cons, List.mem_singleton, List.not_mem_nil, or_false] at hm
  omega

theorem greatest_of_two (v : Int) (h : IsGreatestOfFirst testArr 2 v) : v = 5 := by
  obtain ⟨h1, h2⟩ := h
  have h5 := h2 5 (by decide)
  have hm : v ∈ [(5 : Int), 2] := h1
  simp only [List.mem_cons, List.mem_singleton, List.not_mem_nil, or_false] at hm
  omega

theorem printMaximum_four (f : List Int → Int → Option Int) (hf : ReturnsGreatest f) :
    printMaximum f 4 = Outcome.mk [(testArr, 4)] "8\n" (some 0) := by
  obtain ⟨v, hv, hg⟩ := hf testArr 4 (by decide) (by decide)
  rw [printMaximum_of_some f 4 v hv, greatest_of_four v hg]
  rfl

theorem printMaximum_eight (f : List Int → Int → Option Int) (hf : ReturnsGreatest f) :
    printMaximum f 8 = Outcome.mk [(testArr, 8)] "15\n" (some 0) := by
  obtain ⟨v, hv, hg⟩ := hf testArr 8 (by decide) (by decide)
  rw [printMaximum_of_some f 8 v hv, greatest_of_eight v hg]
  rfl

theorem printMaximum_two (f : List Int → Int → Option Int) (hf : ReturnsGreatest f) :
    printMaximum f 2 = Outcome.mk [(testArr, 2)] "5\n" (some 0) := by
  obtain ⟨v, hv, hg⟩ := hf testArr 2 (by decide) (by decide)
  rw [printMaximum_of_some f 2 v hv, greatest_of_two v hg]
  rfl

/-- An argument in which no digit follows the white space and sign that `atoi`
consumes is read as 0. -/
theorem atoi_no_number (ws sign rest : List Char) (hws : ∀ c ∈ ws, isspace c = true)
    (hsign : sign = [] ∨ sign = ['+'] ∨ sign = ['-'])
    (hrest : ∀ c ∈ rest.head?, isdigit c = false ∧
      (sign = [] → isspace c = false ∧ c ≠ '+' ∧ c ≠ '-')) :
    atoi (String.mk (ws ++ sign ++ rest)) = some 0 := by
  show atoiChars (ws ++ sign ++ rest) = some 0
  rw [List.append_assoc]
  rcases hsign with h | h | h
  · subst h
    refine atoiChars_no_number ws rest hws (fun c hc => ?_)
    obtain ⟨h1, h2⟩ := hrest c hc
    exact ⟨h1, h2 rfl⟩
  · subst h
    have := atoiChars_signed ws [] rest '+' (Or.inr rfl) hws (by simp)
      (fun c hc => (hrest c hc).1)
    simp only [List.nil_append] at this
    rw [List.singleton_append, this]
    decide
  · subst h
    have := atoiChars_signed ws [] rest '-' (Or.inl rfl) hws (by simp)
      (fun c hc => (hrest c hc).1)
    simp only [List.nil_append] at this
    rw [List.singleton_append, this]
    decide

/-- An argument made of white space, an optional sign and a digit run that ends
where the trailing characters begin is read as the signed value of the run. -/
theorem atoi_number (ws sign ds rest : List Char) (hws : ∀ c ∈ ws, isspace c = true)
    (hsign : sign = [] ∨ sign = ['+'] ∨ sign = ['-'])
    (hne : ds ≠ []) (hd : ∀ c ∈ ds, isdigit c = true)
    (hrest : ∀ c ∈ rest.head?, isdigit c = false)
    (hlo : INT_MIN ≤ signedValue sign ds) (hhi : signedValue sign ds ≤ INT_MAX) :
    atoi (String.mk (ws ++ sign ++ ds ++ rest)) = some (signedValue sign ds) := by
  show atoiChars (ws ++ sign ++ ds ++ rest) = some (signedValue sign ds)
  simp only [List.append_assoc]
  rw [← toInt32_of_fits _ hlo hhi]
  rcases hsign with h | h | h
  · subst h
    rw [List.nil_append, atoiChars_digits ws ds rest hws hne hd hrest]
    rfl
  · subst h
    rw [List.singleton_append, atoiChars_signed ws ds rest '+' (Or.inr rfl) hws hd hrest]
    rfl
  · subst h
    rw [List.singleton_append, atoiChars_signed ws ds rest '-' (Or.inl rfl) hws hd hrest]
    rfl

/-! ## The text written for an `int` is its decimal numeral -/

theorem digitChar_spec : ∀ k, k < 10 →
    isdigit (Nat.digitChar k) = true ∧ digitValue (Nat.digitChar k) = k := by
  decide

theorem decimalValue_concat (l : List Char) (c : Char) :
    decimalValue (l ++ [c]) = 10 * decimalValue l + digitValue c := by
  unfold decimalValue
  simp [Nat.ofDigits_cons]
  ring

theorem toDigitsCore_spec (fuel : Nat) : ∀ (n : Nat) (ds : List Char), n < fuel →
    ∃ pre, Nat.toDigitsCore 10 fuel n ds = pre ++ ds ∧ pre ≠ [] ∧
      (∀ c ∈ pre, isdigit c = true) ∧ decimalValue pre = n := by
  induction fuel with
  | zero => intro n ds h; omega
  | succ k ih =>
    intro n ds h
    have hmod : n % 10 < 10 := Nat.mod_lt _ (by decide)
    obtain ⟨hdig, hval⟩ := digitChar_spec (n % 10) hmod
    by_cases h0 : n / 10 = 0
    · refine ⟨[Nat.digitChar (n % 10)], ?_, by simp, ?_, ?_⟩
      · simp [Nat.toDigitsCore, h0]
      · intro c hc
        rw [List.mem_singleton.mp hc]
        exact hdig
      · have := decimalValue_concat [] (Nat.digitChar (n % 10))
        simp only [List.nil_append] at this
        rw [this, hval]
        simp [decimalValue]
        omega
    · have hlt : n / 10 < k := by omega
      obtain ⟨pre, h1, _, h3, h4⟩ := ih (n / 10) (Nat.digitChar (n % 10) :: ds) hlt
      refine ⟨pre ++ [Nat.digitChar (n % 10)], ?_, by simp, ?_, ?_⟩
      · simp [Nat.toDigitsCore, h0, h1]
      · intro c hc
        rcases List.mem_append.mp hc with h | h
        · exact h3 c h
        · rw [List.mem_singleton.mp h]
          exact hdig
      · rw [decimalValue_concat, h4, hval]
        omega

theorem repr_spec (n : Nat) :
    (Nat.repr n).toList ≠ [] ∧ (∀ c ∈ (Nat.repr n).toList, isdigit c = true) ∧
      decimalValue (Nat.repr n).toList = n := by
  obtain ⟨pre, h1, h2, h3, h4⟩ := toDigitsCore_spec (n + 1) n [] (Nat.lt_succ_self n)
  have hrepr : (Nat.repr n).toList = pre := by
    simp [Nat.repr, Nat.toDigits, h1, List.asString]
  rw [hrepr]
  exact ⟨h2, h3, h4⟩

/-- Reading back with `atoi` the text written for an `int` gives the `int`. -/
theorem atoi_showInt (v : Int) (hlo : INT_MIN ≤ v) (hhi : v ≤ INT_MAX) :
    atoi (showInt v) = some v := by
  rw [← toInt32_of_fits v hlo hhi]
  cases v with
  | ofNat m =>
    obtain ⟨h1, h2, h3⟩ := repr_spec m
    have := atoiChars_digits [] (Nat.repr m).toList [] (by simp) h1 h2 (by simp)
    simp only [List.nil_append, List.append_nil, h3] at this
    exact this
  | negSucc m =>
    obtain ⟨_, h2, h3⟩ := repr_spec (m + 1)
    have := atoiChars_signed [] (Nat.repr (m + 1)).toList [] '-' (Or.inl rfl) (by simp) h2
      (by simp)
    simp only [List.nil_append, List.append_nil, h3, if_true] at this
    show atoiChars ("-" ++ Nat.repr (m + 1)).toList = _
    rw [String.toList, String.data_append]
    exact this

/-! ## The claims -/

/-- C1: for every linked function `f` and every argument list whose parsed selector
`s` is 0, 1 or 2, `main` calls `f` exactly once, on the sample array
`[5,2,8,3,1,15,9,10]` with length 4, 8 or 2 respectively; when that call returns
`v`, standard output holds exactly the decimal numeral of `v` followed by a newline
(the numeral reads back as `v`), and the run ends with exit code 0. -/
theorem main_calls_once_and_prints (f : List Int → Int → Option Int)
    (argv : List String) (s n : Int) (hs : selector argv = some s)
    (hn : (s = 0 ∧ n = 4) ∨ (s = 1 ∧ n = 8) ∨ (s = 2 ∧ n = 2)) :
    (∃ o, main f argv = some o ∧ o.calls = [([5, 2, 8, 3, 1, 15, 9, 10], n)]) ∧
    (∀ v, f [5, 2, 8, 3, 1, 15, 9, 10] n = some v →
      main f argv =
        some (Outcome.mk [([5, 2, 8, 3, 1, 15, 9, 10], n)] (showInt v ++ "\n") (some 0)) ∧
      (INT_MIN ≤ v → v ≤ INT_MAX → atoi (showInt v) = some v)) := by
  have hbody : mainBody f s = printMaximum f n := by
    rcases hn with ⟨h1, h2⟩ | ⟨h1, h2⟩ | ⟨h1, h2⟩ <;> subst h1 <;> subst h2 <;> rfl
  rw [main_of_selector f argv s hs, hbody]
  refine ⟨⟨_, rfl, printMaximum_calls f n⟩, fun v hv => ⟨?_, atoi_showInt v⟩⟩
  rw [printMaximum_of_some f n v hv]
  rfl

theorem main_calls_once_and_prints_witness :
    selector ["test-1-2", "1"] = some 1 ∧
    main maximum ["test-1-2", "1"] =
      some (Outcome.mk [([5, 2, 8, 3, 1, 15, 9, 10], 8)] (showInt 15 ++ "\n") (some 0)) :=
  ⟨by decide,
   ((main_calls_once_and_prints maximum ["test-1-2", "1"] 1 8 (by decide)
      (Or.inr (Or.inl ⟨rfl, rfl⟩))).2 15 (by decide)).1⟩

/-- C2: when the linked function returns the greatest of the first `n` elements,
`main` prints `8` for selector 0, `15` for selector 1 and `5` for selector 2, each
followed by a newline, after a single call with length 4, 8 and 2. -/
theorem main_prints_expected_maxima (f : List Int → Int → Option Int)
    (hf : ReturnsGreatest f) (argv : List String) :
    (selector argv = some 0 →
      main f argv = some (Outcome.mk [(testArr, 4)] "8\n" (some 0))) ∧
    (selector argv = some 1 →
      main f argv = some (Outcome.mk [(testArr, 8)] "15\n" (some 0))) ∧
    (selector argv = some 2 →
      main f argv = some (Outcome.mk [(testArr, 2)] "5\n" (some 0))) := by
  refine ⟨fun hs => ?_, fun hs => ?_, fun hs => ?_⟩
  · rw [main_of_selector f argv 0 hs, ← printMaximum_four f hf]
    rfl
  · rw [main_of_selector f argv 1 hs, ← printMaximum_eight f hf]
    rfl
  · rw [main_of_selector f argv 2 hs, ← printMaximum_two f hf]
    rfl

theorem main_prints_expected_maxima_witness :
    ReturnsGreatest maximum ∧ selector ["test-1-2", "2"] = some 2 ∧
    main maximum ["test-1-2", "2"] = some (Outcome.mk [(testArr, 2)] "5\n" (some 0)) :=
  ⟨maximum_returnsGreatest, by decide,
   (main_prints_expected_maxima maximum maximum_returnsGreatest
      ["test-1-2", "2"]).2.2 (by decide)⟩

/-- C3: for every integer sequence and every `n` with `1 ≤ n ≤ length`, the modelled
`maximum` returns a value, that value is one of the first `n` elements and it is
greater than or equal to each of them; on the one element sequence `[5]` it
returns 5. -/
theorem maximum_is_greatest_of_first (seq : List Int) (n : Int) (h1 : 1 ≤ n)
    (h2 : n ≤ (seq.length : Int)) :
    (∃ v, maximum seq n = some v ∧ v ∈ seq.take n.toNat ∧
      ∀ x ∈ seq.take n.toNat, x ≤ v) ∧
    maximum [5] 1 = some 5 := by
  obtain ⟨v, hv, hg⟩ := maximum_greatest seq n h1 h2
  exact ⟨⟨v, hv, hg.1, hg.2⟩, rfl⟩

theorem maximum_is_greatest_of_first_witness :
    (1 : Int) ≤ 3 ∧ (3 : Int) ≤ (([4, -7, 9, 12] : List Int).length : Int) ∧
    ∃ v, maximum [4, -7, 9, 12] 3 = some v ∧ v ∈ ([4, -7, 9, 12] : List Int).take 3 ∧
      ∀ x ∈ ([4, -7, 9, 12] : List Int).take 3, x ≤ v :=
  ⟨by decide, by decide,
   (maximum_is_greatest_of_first [4, -7, 9, 12] 3 (by decide) (by decide)).1⟩

/-- C4: with no command-line argument (`argc ≤ 1`) `main` behaves exactly as with
the argument `0`: the selector is 0, the one call is on the sample array with
length 4, its result is printed, and the output is `8` for a linked function that
returns the greatest element. -/
theorem main_without_argument (f : List Int → Int → Option Int) (argv : List String)
    (h : argv.length ≤ 1) :
    selector argv = some 0 ∧
    main f argv = main f ["test-1-2", "0"] ∧
    (∃ o, main f argv = some o ∧ o.calls = [(testArr, 4)]) ∧
    (∀ v, f testArr 4 = some v →
      main f argv = some (Outcome.mk [(testArr, 4)] (showInt v ++ "\n") (some 0))) ∧
    (ReturnsGreatest f → main f argv = some (Outcome.mk [(testArr, 4)] "8\n" (some 0))) := by
  have hs := selector_of_short argv h
  have hm : main f argv = some (printMaximum f 4) := main_of_selector f argv 0 hs
  refine ⟨hs, ?_, ⟨_, hm, printMaximum_calls f 4⟩, fun v hv => ?_, fun hf => ?_⟩
  · rw [hm]
    exact (main_of_selector f _ 0 (by decide)).symm
  · rw [hm, printMaximum_of_some f 4 v hv]
  · rw [hm, printMaximum_four f hf]

theorem main_without_argument_witness :
    (["test-1-2"] : List String).length ≤ 1 ∧
    main maximum ["test-1-2"] = some (Outcome.mk [(testArr, 4)] "8\n" (some 0)) :=
  ⟨by decide,
   (main_without_argument maximum ["test-1-2"] (by decide)).2.2.2.2
     maximum_returnsGreatest⟩

/-- C5, as stated, fails: `1abc` is not a decimal integer, yet its selector is 1,
not 0, so `main` calls with length 8 and prints `15`; hence not every argument
that is not a decimal integer is treated as 0. -/
theorem non_numeric_selector_not_always_zero :
    isDecimalInteger "1abc" = false ∧
    selector ["test-1-2", "1abc"] = some 1 ∧
    main maximum ["test-1-2", "1abc"] =
      some (Outcome.mk [(testArr, 8)] "15\n" (some 0)) ∧
    ¬ (∀ arg : String, isDecimalInteger arg = false →
        selector ["test-1-2", arg] = some 0) := by
  refine ⟨by decide, by decide, by decide, fun h => ?_⟩
  exact absurd (h "1abc" (by decide)) (by decide)

/-- C5, amended: a missing selector, and every first argument in which no decimal
digit follows the leading white space and optional sign (for example `abc`), is
treated as 0 rather than failing the process: `main` calls the linked function
once with length 4, prints its result (`8` for the greatest element) and exits
with code 0. -/
theorem selector_without_digits_is_zero (f : List Int → Int → Option Int)
    (prog : String) (more : List String) (ws sign rest : List Char)
    (hws : ∀ c ∈ ws, isspace c = true)
    (hsign : sign = [] ∨ sign = ['+'] ∨ sign = ['-'])
    (hrest : ∀ c ∈ rest.head?, isdigit c = false ∧
      (sign = [] → isspace c = false ∧ c ≠ '+' ∧ c ≠ '-')) :
    selector [prog] = some 0 ∧
    selector (prog :: String.mk (ws ++ sign ++ rest) :: more) = some 0 ∧
    (∃ o, main f (prog :: String.mk (ws ++ sign ++ rest) :: more) = some o ∧
      o.calls = [(testArr, 4)]) ∧
    (∀ v, f testArr 4 = some v →
      main f (prog :: String.mk (ws ++ sign ++ rest) :: more) =
        some (Outcome.mk [(testArr, 4)] (showInt v ++ "\n") (some 0))) ∧
    (ReturnsGreatest f →
      main f (prog :: String.mk (ws ++ sign ++ rest) :: more) =
        some (Outcome.mk [(testArr, 4)] "8\n" (some 0))) ∧
    main maximum ["test-1-2", "abc"] =
      some (Outcome.mk [(testArr, 4)] "8\n" (some 0)) := by
  have hs : selector (prog :: String.mk (ws ++ sign ++ rest) :: more) = some 0 := by
    rw [selector_cons_cons]
    exact atoi_no_number ws sign rest hws hsign hrest
  have hm : main f (prog :: String.mk (ws ++ sign ++ rest) :: more) =
      some (printMaximum f 4) := main_of_selector f _ 0 hs
  refine ⟨selector_of_short [prog] (by simp), hs, ⟨_, hm, printMaximum_calls f 4⟩,
    fun v hv => ?_, fun hf => ?_, by decide⟩
  · rw [hm, printMaximum_of_some f 4 v hv]
  · rw [hm, printMaximum_four f hf]

theorem selector_without_digits_is_zero_witness :
    selector ["test-1-2", String.mk ([' ', ' '] ++ ['-'] ++ ['x', '7'])] = some 0 ∧
    main maximum ["test-1-2", String.mk ([' ', ' '] ++ ['-'] ++ ['x', '7'])] =
      some (Outcome.mk [(testArr, 4)] "8\n" (some 0)) :=
  ⟨(selector_without_digits_is_zero maximum "test-1-2" [] [' ', ' '] ['-'] ['x', '7']
      (by decide) (Or.inr (Or.inr rfl)) (by decide)).2.1,
   (selector_without_digits_is_zero maximum "test-1-2" [] [' ', ' '] ['-'] ['x', '7']
      (by decide) (Or.inr (Or.inr rfl)) (by decide)).2.2.2.2.1
      maximum_returnsGreatest⟩

/-- C6: for every argument list whose parsed selector is an integer other than 0, 1
and 2 (for example `3` or `-1`), `main` does not call the linked function, writes
nothing to standard output and exits with code 0. -/
theorem main_silent_on_other_selectors (f : List Int → Int → Option Int)
    (argv : List String) (s : Int) (hs : selector argv = some s)
    (h0 : s ≠ 0) (h1 : s ≠ 1) (h2 : s ≠ 2) :
    main f argv = some (Outcome.mk [] "" (some 0)) ∧
    main f ["test-1-2", "3"] = some (Outcome.mk [] "" (some 0)) ∧
    main f ["test-1-2", "-1"] = some (Outcome.mk [] "" (some 0)) := by
  refine ⟨?_, ?_, ?_⟩
  · rw [main_of_selector f argv s hs]
    simp [mainBody, h0, h1, h2]
  · rw [main_of_selector f _ 3 (by decide)]
    rfl
  · rw [main_of_selector f _ (-1) (by decide)]
    rfl

theorem main_silent_on_other_selectors_witness :
    selector ["test-1-2", "42"] = some 42 ∧
    main maximum ["test-1-2", "42"] = some (Outcome.mk [] "" (some 0)) :=
  ⟨by decide,
   (main_silent_on_other_selectors maximum ["test-1-2", "42"] 42 (by decide)
      (by decide) (by decide) (by decide)).1⟩

/-- C7: for every argument list whose parsed selector is 0, 1 or 2, `main` runs to
an outcome, and provided each call it made to the linked function returns, that
outcome is a normal termination with exit code 0. -/
theorem main_exits_zero (f : List Int → Int → Option Int) (argv : List String) (s : Int)
    (hs : selector argv = some s) (hin : s = 0 ∨ s = 1 ∨ s = 2) :
    ∃ o, main f argv = some o ∧
      ((∀ c ∈ o.calls, (f c.1 c.2).isSome = true) → o.exit = some 0) := by
  have hbody : ∃ n, mainBody f s = printMaximum f n := by
    rcases hin with h | h | h <;> subst h
    · exact ⟨4, rfl⟩
    · exact ⟨8, rfl⟩
    · exact ⟨2, rfl⟩
  obtain ⟨n, hn⟩ := hbody
  refine ⟨printMaximum f n, by rw [main_of_selector f argv s hs, hn], fun hret => ?_⟩
  have hcall := hret (testArr, n) (by rw [printMaximum_calls]; exact List.mem_singleton.mpr rfl)
  obtain ⟨v, hv⟩ := Option.isSome_iff_exists.mp hcall
  rw [printMaximum_of_some f n v hv]

theorem main_exits_zero_witness :
    selector ["test-1-2", "0"] = some 0 ∧
    ∃ o, main maximum ["test-1-2", "0"] = some o ∧
      ((∀ c ∈ o.calls, (maximum c.1 c.2).isSome = true) → o.exit = some 0) :=
  ⟨by decide, main_exits_zero maximum ["test-1-2", "0"] 0 (by decide) (Or.inl rfl)⟩

/-- C9: the selector is read with "leading digits, else 0" semantics. For a first
argument made of white space, an optional sign, a non-empty run of decimal digits
(the whole run: the trailing characters are whatever follows its last digit) and
any trailing characters, where the signed value fits in an `int`, the selector is
the signed value of the run; so `1abc` selects length 8 and `2 ` selects length 2.
When no digit follows the white space and sign that are read, the selector is 0. -/
theorem selector_reads_leading_digits (prog : String) (more : List String)
    (ws sign : List Char) (hws : ∀ c ∈ ws, isspace c = true)
    (hsign : sign = [] ∨ sign = ['+'] ∨ sign = ['-']) :
    (∀ (ds rest : List Char), ds ≠ [] → (∀ c ∈ ds, isdigit c = true) →
      (∀ c ∈ rest.head?, isdigit c = false) →
      INT_MIN ≤ signedValue sign ds → signedValue sign ds ≤ INT_MAX →
      selector (prog :: String.mk (ws ++ sign ++ ds ++ rest) :: more) =
        some (signedValue sign ds)) ∧
    (∀ f : List Int → Int → Option Int, ∃ o, main f [prog, "1abc"] = some o ∧
      o.calls = [(testArr, 8)]) ∧
    (∀ f : List Int → Int → Option Int, ∃ o, main f [prog, "2 "] = some o ∧
      o.calls = [(testArr, 2)]) ∧
    (∀ (rest : List Char),
      (∀ c ∈ rest.head?, isdigit c = false ∧
        (sign = [] → isspace c = false ∧ c ≠ '+' ∧ c ≠ '-')) →
      selector (prog :: String.mk (ws ++ sign ++ rest) :: more) = some 0) := by
  refine ⟨fun ds rest hne hd hrest hlo hhi => ?_, fun f => ?_, fun f => ?_,
    fun rest hrest => ?_⟩
  · rw [selector_cons_cons]
    exact atoi_number ws sign ds rest hws hsign hne hd hrest hlo hhi
  · have hs : selector [prog, "1abc"] = some 1 := by
      rw [selector_cons_cons]
      decide
    exact ⟨_, main_of_selector f _ 1 hs, printMaximum_calls f 8⟩
  · have hs : selector [prog, "2 "] = some 2 := by
      rw [selector_cons_cons]
      decide
    exact ⟨_, main_of_selector f _ 2 hs, printMaximum_calls f 2⟩
  · rw [selector_cons_cons]
    exact atoi_no_number ws sign rest hws hsign hrest

theorem selector_reads_leading_digits_witness :
    signedValue ['-'] ['0', '4', '2'] = -42 ∧
    selector ["test-1-2", String.mk ([' ', Char.ofNat 9] ++ ['-'] ++ ['0', '4', '2'] ++ ['.', '5'])]
      = some (-42) :=
  ⟨by decide,
   (selector_reads_leading_digits "test-1-2" [] [' ', Char.ofNat 9] ['-'] (by decide)
      (Or.inr (Or.inr rfl))).1 ['0', '4', '2'] ['.', '5'] (by decide) (by decide) (by decide)
      (by decide) (by decide)⟩

/-- C10: for every argument list and every linked function, each call `main` makes
passes the 8-element sample array together with a length `n`, `1 ≤ n ≤ 8`; the
same holds of the selector chain for every selector value whatsoever. So the
modelled `maximum` is never entered with an out-of-range length from `main`: at
every call site it returns a value. -/
theorem main_calls_within_bounds (f : List Int → Int → Option Int) :
    (∀ (test : Int), ∀ c ∈ (mainBody f test).calls,
      c.1 = [5, 2, 8, 3, 1, 15, 9, 10] ∧ c.1.length = 8 ∧ 1 ≤ c.2 ∧ c.2 ≤ 8 ∧
        ∃ v, maximum c.1 c.2 = some v) ∧
    (∀ (argv : List String) (o : Outcome), main f argv = some o → ∀ c ∈ o.calls,
      c.1 = [5, 2, 8, 3, 1, 15, 9, 10] ∧ c.1.length = 8 ∧ 1 ≤ c.2 ∧ c.2 ≤ 8 ∧
        ∃ v, maximum c.1 c.2 = some v) := by
  have hbody : ∀ (test : Int), ∀ c ∈ (mainBody f test).calls,
      c.1 = [5, 2, 8, 3, 1, 15, 9, 10] ∧ c.1.length = 8 ∧ 1 ≤ c.2 ∧ c.2 ≤ 8 ∧
        ∃ v, maximum c.1 c.2 = some v := by
    intro test c hc
    unfold mainBody at hc
    split_ifs at hc
    · rw [printMaximum_calls, List.mem_singleton] at hc
      subst hc
      exact ⟨rfl, rfl, by decide, by decide, 8, rfl⟩
    · rw [printMaximum_calls, List.mem_singleton] at hc
      subst hc
      exact ⟨rfl, rfl, by decide, by decide, 15, rfl⟩
    · rw [printMaximum_calls, List.mem_singleton] at hc
      subst hc
      exact ⟨rfl, rfl, by decide, by decide, 5, rfl⟩
    · exact absurd hc (List.not_mem_nil c)
  refine ⟨hbody, fun argv o hmain c hc => ?_⟩
  unfold main at hmain
  cases hsel : selector argv with
  | none => rw [hsel] at hmain; exact absurd hmain (by simp)
  | some t =>
    rw [hsel] at hmain
    have ho : mainBody f t = o := by simpa using hmain
    rw [← ho] at hc
    exact hbody t c hc

theorem main_calls_within_bounds_witness :
    main maximum ["test-1-2", "1"] =
      some (Outcome.mk [(testArr, 8)] "15\n" (some 0)) ∧
    ((testArr, (8 : Int)) : List Int × Int) ∈ [(testArr, (8 : Int))] ∧
    (1 : Int) ≤ 8 ∧ (8 : Int) ≤ 8 ∧ ∃ v, maximum testArr 8 = some v :=
  ⟨by decide, List.mem_singleton.mpr rfl,
   ((main_calls_within_bounds maximum).2 ["test-1-2", "1"]
      (Outcome.mk [(testArr, 8)] "15\n" (some 0)) (by decide) (testArr, 8)
      (List.mem_singleton.mpr rfl)).2.2⟩

end GsAutograder
